import Mathlib

/-!
Shallow embedding of the playlist synchronization engine of
`playlist_sync` (`models.py`, `sync.py`): the data model, the track-list
digest, the per-group reconciliation algorithm, the group registry and
the scheduler loop, together with theorems checking the
natural-language specification against the code.

Conventions of the embedding:
  - Python dictionaries are modelled as insertion-ordered association
    lists (`List (κ × α)`); lookup takes the first matching key.
  - Asynchronous connector calls that may raise are modelled as pure
    functions returning `Except Err α`; an exception aborts the caller
    exactly as in the Python control flow (there is no `try`/`except`
    around connector calls in `sync.py`).
  - The effect of a reconciliation run is captured as a trace of
    `Event`s (connector reads/writes and state-store writes) plus the
    resulting snapshot store.
-/

namespace PlaylistSync

/-- The `ServiceType` enumeration (`models.py`). -/
inductive ServiceType
  | spotify
  | apple_music
  | youtube_music
deriving DecidableEq, Repr

/-- The `.value` serialization tag of each `ServiceType` member. -/
def ServiceType.value : ServiceType → String
  | .spotify => "spotify"
  | .apple_music => "apple_music"
  | .youtube_music => "youtube_music"

/-- The `ServiceType(s)` constructor call: `some` member whose value is
`s`, and `none` where Python raises `ValueError`. -/
def ServiceType.ofValue (s : String) : Option ServiceType :=
  if s = "spotify" then some .spotify
  else if s = "apple_music" then some .apple_music
  else if s = "youtube_music" then some .youtube_music
  else none

/-- The `Track` dataclass (`models.py`). -/
structure Track where
  id : String
  title : String
  artists : List String := []
  album : Option String := none
  isrc : Option String := none
  duration_ms : Option Nat := none
deriving DecidableEq, Repr

/-- Python `str.lower()`, modelled characterwise. -/
def pyLower (s : String) : String := String.map Char.toLower s

/-- `Track.normalized_signature` (`models.py` lines 23–26):
`f"{title.lower()}|{' '.join(artists).lower()}|{(album or '').lower()}"`. -/
def Track.normalized_signature (t : Track) : String :=
  pyLower t.title ++ "|" ++ pyLower (String.intercalate " " t.artists)
    ++ "|" ++ pyLower (t.album.getD "")

/-- The exact-match scan inside `search_track`
(`connectors/spotify.py` lines 193–204, `connectors/apple_music.py`
lines 205–218): the first candidate whose normalized signature equals
the query's is the one treated as the same song. -/
def exactSignatureMatch (query : Track) (candidates : List Track) : Option Track :=
  candidates.find? (fun c => c.normalized_signature == query.normalized_signature)

/-- The `SyncGroup` dataclass (`sync.py` lines 15–41); the `playlists`
dict is an insertion-ordered association list. -/
structure SyncGroup where
  id : String
  name : String
  primary_service : ServiceType
  playlists : List (ServiceType × String) := []
deriving DecidableEq, Repr

/-- The wire shape produced by `SyncGroup.to_dict`. -/
structure GroupPayload where
  id : String
  name : String
  primary_service : String
  playlists : List (String × String)
deriving DecidableEq, Repr

/-- `SyncGroup.to_dict` (`sync.py` lines 22–28). -/
def SyncGroup.to_dict (g : SyncGroup) : GroupPayload :=
  { id := g.id
    name := g.name
    primary_service := g.primary_service.value
    playlists := g.playlists.map (fun e => (e.1.value, e.2)) }

/-- One entry of the `playlists` comprehension in `SyncGroup.from_dict`:
`ServiceType(service)` may raise, modelled by `Option`. -/
def parsePlaylistEntry (e : String × String) : Option (ServiceType × String) :=
  (ServiceType.ofValue e.1).map (fun s => (s, e.2))

/-- The `playlists` dict comprehension of `SyncGroup.from_dict`: the
first `ValueError` aborts the whole construction. -/
def parsePlaylists : List (String × String) → Option (List (ServiceType × String))
  | [] => some []
  | e :: rest =>
      (parsePlaylistEntry e).bind fun s => (parsePlaylists rest).map fun l => s :: l

/-- `SyncGroup.from_dict` (`sync.py` lines 30–41). -/
def SyncGroup.from_dict (p : GroupPayload) : Option SyncGroup :=
  (parsePlaylists p.playlists).bind fun playlists =>
    (ServiceType.ofValue p.primary_service).map fun primary =>
      { id := p.id, name := p.name, primary_service := primary, playlists := playlists }

/-- `SyncManager.save_groups` (`sync.py` lines 56–58): the payload
written under the `"sync_groups"` key. -/
def saveGroups (groups : List SyncGroup) : List GroupPayload :=
  groups.map SyncGroup.to_dict

/-- `SyncManager.load_groups` (`sync.py` lines 51–54): the list
comprehension over the raw payload; a `ValueError` aborts it. -/
def loadGroups : List GroupPayload → Option (List SyncGroup)
  | [] => some []
  | p :: rest =>
      (SyncGroup.from_dict p).bind fun g => (loadGroups rest).map fun gs => g :: gs

/-! ### Track-list digest (`SyncManager._tracks_digest`, `sync.py` lines 147–160)

The digest input is `json.dumps(payload, sort_keys=True)` where `payload`
is the list of `{id, title, artists, album, isrc}` records in source
order; the serialization is modelled characterwise after CPython's
`ensure_ascii` encoder, and the hash is SHA-256 over the UTF-8 bytes. -/

/-- Lowercase hexadecimal digit for `n < 16`. -/
def hexChar (n : Nat) : Char := if n < 10 then Char.ofNat (48 + n) else Char.ofNat (87 + n)

/-- Four lowercase hex digits of `n % 65536`, most significant first. -/
def hex4 (n : Nat) : List Char :=
  [hexChar (n / 4096 % 16), hexChar (n / 256 % 16), hexChar (n / 16 % 16), hexChar (n % 16)]

/-- `json.dumps` escaping of one character (CPython
`py_encode_basestring_ascii`): printable ASCII other than `"` and `\`
stays literal, `\b\t\n\f\r` use short escapes, everything else becomes
`\uXXXX`, with a surrogate pair beyond the BMP. -/
def escapeChar (c : Char) : List Char :=
  let n := c.toNat
  if n = 34 then ['\\', '"']
  else if n = 92 then ['\\', '\\']
  else if n = 8 then ['\\', 'b']
  else if n = 9 then ['\\', 't']
  else if n = 10 then ['\\', 'n']
  else if n = 12 then ['\\', 'f']
  else if n = 13 then ['\\', 'r']
  else if n < 32 then '\\' :: 'u' :: hex4 n
  else if n < 127 then [c]
  else if n ≤ 65535 then '\\' :: 'u' :: hex4 n
  else
    let v := n - 65536
    '\\' :: 'u' :: hex4 (55296 + v / 1024) ++ ('\\' :: 'u' :: hex4 (56320 + v % 1024))

/-- JSON rendering of a string: quote, escaped characters, quote. -/
def renderStr (s : String) : List Char :=
  '"' :: s.data.flatMap escapeChar ++ ['"']

/-- JSON rendering of an optional string (`None` becomes `null`). -/
def renderOptStr : Option String → List Char
  | none => ['n', 'u', 'l', 'l']
  | some s => renderStr s

/-- JSON rendering of a list of strings with the default `", "`
item separator. -/
def renderStrList (l : List String) : List Char :=
  match l with
  | [] => ['[', ']']
  | s :: rest => '[' :: renderStr s ++ (rest.flatMap (fun t => ',' :: ' ' :: renderStr t)) ++ [']']

/-- A serialized object key followed by the `": "` separator; the five
keys used are letter-only, so escaping leaves them unchanged. -/
def renderKey (k : String) : List Char := '"' :: k.data ++ ['"', ':', ' ']

/-- One track's record in the digest payload, keys in `sort_keys=True`
order: `album`, `artists`, `id`, `isrc`, `title`. -/
def renderTrackRecord (t : Track) : List Char :=
  '{' :: (renderKey "album" ++ renderOptStr t.album)
      ++ (',' :: ' ' :: renderKey "artists" ++ renderStrList t.artists)
      ++ (',' :: ' ' :: renderKey "id" ++ renderStr t.id)
      ++ (',' :: ' ' :: renderKey "isrc" ++ renderOptStr t.isrc)
      ++ (',' :: ' ' :: renderKey "title" ++ renderStr t.title)
      ++ ['}']

/-- The serialized digest payload: the JSON list of track records in
source order. -/
def renderRecList (ts : List Track) : List Char :=
  match ts with
  | [] => ['[', ']']
  | t :: rest =>
      '[' :: renderTrackRecord t ++ (rest.flatMap (fun u => ',' :: ' ' :: renderTrackRecord u)) ++ [']']

/-- `json.dumps(payload, sort_keys=True)` for the digest payload. -/
def jsonTracksPayload (ts : List Track) : String := String.mk (renderRecList ts)

/-- UTF-8 encoding of one code point, as byte values. -/
def utf8Char (c : Char) : List Nat :=
  let n := c.toNat
  if n < 128 then [n]
  else if n < 2048 then [192 + n / 64, 128 + n % 64]
  else if n < 65536 then [224 + n / 4096, 128 + n / 64 % 64, 128 + n % 64]
  else [240 + n / 262144, 128 + n / 4096 % 64, 128 + n / 64 % 64, 128 + n % 64]

/-- `.encode("utf-8")` of a string, as byte values. -/
def utf8Bytes (s : String) : List Nat := s.data.flatMap utf8Char

def M32 : Nat := 4294967296

def add32 (a b : Nat) : Nat := (a + b) % M32

def rotr32 (k x : Nat) : Nat := ((x >>> k) ||| (x <<< (32 - k))) % M32

def not32 (x : Nat) : Nat := x ^^^ (M32 - 1)

def bigSigma0 (x : Nat) : Nat := rotr32 2 x ^^^ rotr32 13 x ^^^ rotr32 22 x

def bigSigma1 (x : Nat) : Nat := rotr32 6 x ^^^ rotr32 11 x ^^^ rotr32 25 x

def smallSigma0 (x : Nat) : Nat := rotr32 7 x ^^^ rotr32 18 x ^^^ (x >>> 3)

def smallSigma1 (x : Nat) : Nat := rotr32 17 x ^^^ rotr32 19 x ^^^ (x >>> 10)

/-- The SHA-256 round constants. -/
def sha256K : List Nat :=
  [1116352408, 1899447441, 3049323471, 3921009573,
   961987163, 1508970993, 2453635748, 2870763221,
   3624381080, 310598401, 607225278, 1426881987,
   1925078388, 2162078206, 2614888103, 3248222580,
   3835390401, 4022224774, 264347078, 604807628,
   770255983, 1249150122, 1555081692, 1996064986,
   2554220882, 2821834349, 2952996808, 3210313671,
   3336571891, 3584528711, 113926993, 338241895,
   666307205, 773529912, 1294757372, 1396182291,
   1695183700, 1986661051, 2177026350, 2456956037,
   2730485921, 2820302411, 3259730800, 3345764771,
   3516065817, 3600352804, 4094571909, 275423344,
   430227734, 506948616, 659060556, 883997877,
   958139571, 1322822218, 1537002063, 1747873779,
   1955562222, 2024104815, 2227730452, 2361852424,
   2428436474, 2756734187, 3204031479, 3329325298]

/-- The SHA-256 initial hash values. -/
def sha256H0 : List Nat :=
  [1779033703, 3144134277, 1013904242, 2773480762,
   1359893119, 2600822924, 528734635, 1541459225]

/-- Big-endian bytes of `n`, `k` bytes wide. -/
def beBytes : Nat → Nat → List Nat
  | 0, _ => []
  | k + 1, n => beBytes k (n / 256) ++ [n % 256]

/-- SHA-256 message padding: `0x80`, zeros to 56 mod 64, then the
64-bit big-endian bit length. -/
def sha256Pad (msg : List Nat) : List Nat :=
  msg ++ 128 :: List.replicate ((119 - msg.length % 64) % 64) 0 ++ beBytes 8 (msg.length * 8)

/-- Big-endian 32-bit words from a byte list. -/
def toWords : List Nat → List Nat
  | b1 :: b2 :: b3 :: b4 :: rest => (((b1 * 256 + b2) * 256 + b3) * 256 + b4) :: toWords rest
  | _ => []

/-- The next word of the SHA-256 message schedule, from the words so far. -/
def nextW (w : List Nat) : Nat :=
  let n := w.length
  (smallSigma1 (w.getD (n - 2) 0) + w.getD (n - 7) 0
    + smallSigma0 (w.getD (n - 15) 0) + w.getD (n - 16) 0) % M32

/-- Extend the message schedule by `k` further words. -/
def extendW : List Nat → Nat → List Nat
  | w, 0 => w
  | w, k + 1 => extendW (w ++ [nextW w]) k

/-- One SHA-256 compression round on the eight-word working state. -/
def sha256Round (k w : Nat) (st : List Nat) : List Nat :=
  match st with
  | [a, b, c, d, e, f, g, h] =>
      let s1 := bigSigma1 e
      let ch := (e &&& f) ^^^ (not32 e &&& g)
      let temp1 := (h + s1 + ch + k + w) % M32
      let s0 := bigSigma0 a
      let maj := (a &&& b) ^^^ (a &&& c) ^^^ (b &&& c)
      let temp2 := (s0 + maj) % M32
      [(temp1 + temp2) % M32, a, b, c, (d + temp1) % M32, e, f, g]
  | other => other

/-- Compress one 64-byte chunk into the running hash values. -/
def sha256Compress (hs : List Nat) (chunk : List Nat) : List Nat :=
  let w := extendW (toWords chunk) 48
  let st := (List.zip sha256K w).foldl (fun st kw => sha256Round kw.1 kw.2 st) hs
  List.zipWith add32 hs st

/-- Split a byte list into 64-byte chunks. -/
def chunks64 (l : List Nat) : List (List Nat) :=
  if h : l = [] then []
  else l.take 64 :: chunks64 (l.drop 64)
termination_by l.length
decreasing_by
  simp only [List.length_drop]
  have hl : 0 < l.length := List.length_pos.mpr h
  omega

/-- SHA-256 of a byte list, as 32 digest bytes. -/
def sha256Bytes (msg : List Nat) : List Nat :=
  ((chunks64 (sha256Pad msg)).foldl sha256Compress sha256H0).flatMap (beBytes 4)

/-- Two lowercase hex digits of a byte. -/
def byteToHex (b : Nat) : List Char := [hexChar (b / 16 % 16), hexChar (b % 16)]

/-- `hashlib.sha256(raw).hexdigest()` for a string's UTF-8 bytes. -/
def sha256HexOfString (s : String) : String :=
  String.mk ((sha256Bytes (utf8Bytes s)).flatMap byteToHex)

/-- `SyncManager._tracks_digest` (`sync.py` lines 147–160). -/
def tracksDigest (tracks : List Track) : String :=
  sha256HexOfString (jsonTracksPayload tracks)

/-- The digest with the cryptographic hash abstracted, used to state
the change-detection claim under the collision-resistance assumption
(injectivity of the hash on the serialized payloads). -/
def tracksDigestWith (hash : String → String) (tracks : List Track) : String :=
  hash (jsonTracksPayload tracks)

/-! ### A parser for the digest payload

Used only to prove the serialization injective: distinct digest
payloads produce distinct `json.dumps` strings. -/

/-- Value of a lowercase hexadecimal digit character. -/
def hexVal (c : Char) : Option Nat :=
  let n := c.toNat
  if 48 ≤ n ∧ n ≤ 57 then some (n - 48)
  else if 97 ≤ n ∧ n ≤ 102 then some (n - 87)
  else none

/-- Decode the four hex digits of a `\uXXXX` unit. -/
def parseHex4 : List Char → Option (Nat × List Char)
  | h1 :: h2 :: h3 :: h4 :: rest =>
      match hexVal h1, hexVal h2, hexVal h3, hexVal h4 with
      | some a, some b, some c, some d => some (((a * 16 + b) * 16 + c) * 16 + d, rest)
      | _, _, _, _ => none
  | _ => none

/-- Decode one escape sequence after the backslash: the code point and
the remaining input; a high surrogate unit must be followed by a low
surrogate unit and the pair is combined. -/
def parseEsc : List Char → Option (Nat × List Char)
  | [] => none
  | e :: rest2 =>
      if e = '"' then some (34, rest2)
      else if e = '\\' then some (92, rest2)
      else if e = 'b' then some (8, rest2)
      else if e = 't' then some (9, rest2)
      else if e = 'n' then some (10, rest2)
      else if e = 'f' then some (12, rest2)
      else if e = 'r' then some (13, rest2)
      else if e = 'u' then
        match parseHex4 rest2 with
        | none => none
        | some (n, rest3) =>
            if 55296 ≤ n ∧ n ≤ 56319 then
              match rest3 with
              | b1 :: e2 :: rest3b =>
                  if b1 = '\\' then
                    if e2 = 'u' then
                      match parseHex4 rest3b with
                      | none => none
                      | some (m, rest4) =>
                          if 56320 ≤ m ∧ m ≤ 57343 then
                            some (65536 + (n - 55296) * 1024 + (m - 56320), rest4)
                          else none
                    else none
                  else none
              | _ => none
            else if 56320 ≤ n ∧ n ≤ 57343 then none
            else some (n, rest3)
      else none

/-- Decode the escaped body of a JSON string up to the closing quote,
yielding code points and the remaining input; the fuel bounds the
number of decoded characters. -/
def parseStrBody : Nat → List Char → Option (List Nat × List Char)
  | _, [] => none
  | fuel, c :: rest =>
      if c = '"' then some ([], rest)
      else
        match fuel with
        | 0 => none
        | fuel + 1 =>
            if c = '\\' then
              match parseEsc rest with
              | none => none
              | some nr => (parseStrBody fuel nr.2).map (fun p => (nr.1 :: p.1, p.2))
            else (parseStrBody fuel rest).map (fun p => (c.toNat :: p.1, p.2))

/-- The code points of a string. -/
def strCodes (s : String) : List Nat := s.data.map Char.toNat

/-- Parse a full JSON string: leading quote, then the body. -/
def parseJString (fuel : Nat) : List Char → Option (List Nat × List Char)
  | '"' :: rest => parseStrBody fuel rest
  | _ => none

/-- Parse `null` or a JSON string. -/
def parseOptStr (fuel : Nat) : List Char → Option (Option (List Nat) × List Char)
  | '"' :: rest => (parseStrBody fuel rest).map (fun p => (some p.1, p.2))
  | 'n' :: 'u' :: 'l' :: 'l' :: rest => some (none, rest)
  | _ => none

/-- Consume an exact literal. -/
def parseLit : List Char → List Char → Option (List Char)
  | [], l => some l
  | c :: k, d :: rest => if d = c then parseLit k rest else none
  | _ :: _, [] => none

/-- Parse the `", item" * "]"` tail of a JSON string list; the first
fuel bounds string lengths, the second the item count. -/
def parseStrListRest (sfuel : Nat) : Nat → List Char → Option (List (List Nat) × List Char)
  | _, ']' :: rest => some ([], rest)
  | fuel + 1, ',' :: ' ' :: rest =>
      (parseJString sfuel rest).bind fun p =>
        (parseStrListRest sfuel fuel p.2).map fun q => (p.1 :: q.1, q.2)
  | _, _ => none

/-- Parse a JSON string list. -/
def parseStrList (sfuel fuel : Nat) : List Char → Option (List (List Nat) × List Char)
  | '[' :: ']' :: rest => some ([], rest)
  | '[' :: rest =>
      (parseJString sfuel rest).bind fun p =>
        (parseStrListRest sfuel fuel p.2).map fun q => (p.1 :: q.1, q.2)
  | _ => none

/-- The parsed form of one digest record. -/
structure ParsedTrack where
  album : Option (List Nat)
  artists : List (List Nat)
  id : List Nat
  isrc : Option (List Nat)
  title : List Nat
deriving DecidableEq, Repr

/-- Parse one track record of the digest payload. -/
def parseTrackRecord (fuel : Nat) (l : List Char) : Option (ParsedTrack × List Char) :=
  (parseLit ('{' :: renderKey "album") l).bind fun l1 =>
  (parseOptStr fuel l1).bind fun pa =>
  (parseLit (',' :: ' ' :: renderKey "artists") pa.2).bind fun l2 =>
  (parseStrList fuel fuel l2).bind fun par =>
  (parseLit (',' :: ' ' :: renderKey "id") par.2).bind fun l3 =>
  (parseJString fuel l3).bind fun pid =>
  (parseLit (',' :: ' ' :: renderKey "isrc") pid.2).bind fun l4 =>
  (parseOptStr fuel l4).bind fun pis =>
  (parseLit (',' :: ' ' :: renderKey "title") pis.2).bind fun l5 =>
  (parseJString fuel l5).bind fun pti =>
  (parseLit ['}'] pti.2).map fun l6 =>
  ({ album := pa.1, artists := par.1, id := pid.1, isrc := pis.1, title := pti.1 }, l6)

/-- Parse the `", record" * "]"` tail of the record list; `rfuel`
bounds sizes within one record, the second fuel the record count. -/
def parseRecListRest (rfuel : Nat) : Nat → List Char → Option (List ParsedTrack × List Char)
  | _, ']' :: rest => some ([], rest)
  | fuel + 1, ',' :: ' ' :: rest =>
      (parseTrackRecord rfuel rest).bind fun p =>
        (parseRecListRest rfuel fuel p.2).map fun q => (p.1 :: q.1, q.2)
  | _, _ => none

/-- Parse the digest payload list. -/
def parseRecList (rfuel fuel : Nat) : List Char → Option (List ParsedTrack × List Char)
  | '[' :: ']' :: rest => some ([], rest)
  | '[' :: rest =>
      (parseTrackRecord rfuel rest).bind fun p =>
        (parseRecListRest rfuel fuel p.2).map fun q => (p.1 :: q.1, q.2)
  | _ => none

/-- What a parse of `renderTrackRecord t` recovers. -/
def encTrack (t : Track) : ParsedTrack :=
  { album := t.album.map strCodes
    artists := t.artists.map strCodes
    id := strCodes t.id
    isrc := t.isrc.map strCodes
    title := strCodes t.title }

/-- The five fields of a track that enter the digest payload. -/
def digestFields (t : Track) :
    String × String × List String × Option String × Option String :=
  (t.id, t.title, t.artists, t.album, t.isrc)

/-- All lengths of a track's serialized parts are within the fuel. -/
def TrackFits (t : Track) (fuel : Nat) : Prop :=
  t.id.data.length ≤ fuel ∧ t.title.data.length ≤ fuel
    ∧ t.artists.length ≤ fuel ∧ (∀ a ∈ t.artists, a.data.length ≤ fuel)
    ∧ (∀ a, t.album = some a → a.data.length ≤ fuel)
    ∧ (∀ a, t.isrc = some a → a.data.length ≤ fuel)

/-- A crude upper bound on all of a track's serialized part lengths. -/
def trackWeight (t : Track) : Nat :=
  t.id.data.length + t.title.data.length + t.artists.length
    + (t.artists.map (fun a => a.data.length)).sum
    + (match t.album with | some a => a.data.length | none => 0)
    + (match t.isrc with | some a => a.data.length | none => 0)

/-- A crude upper bound for a whole payload. -/
def tracksWeight (ts : List Track) : Nat := ts.length + (ts.map trackWeight).sum

/-! ### Connectors, events, and the snapshot store -/

/-- Error surrogate for a raised exception. -/
abbrev Err := String

/-- The connector operations the reconciliation core consumes
(`connectors/base.py`): `token_ready` is the credential flag; the I/O
operations may raise, modelled by `Except Err`. -/
structure Connector where
  token_ready : Bool
  list_tracks : String → Except Err (List Track)
  search_track : Track → Except Err (Option Track)
  replace_tracks : String → List Track → Except Err Unit

/-- Observable effects of a reconciliation run. -/
inductive Event
  | listTracks (service : ServiceType) (playlist_id : String)
  | searchTrack (service : ServiceType) (track : Track)
  | replaceTracks (service : ServiceType) (playlist_id : String) (tracks : List Track)
  | storeSet (key : String) (value : String)
deriving DecidableEq, Repr

/-- The State Store content (`storage.py` keeps a JSON object),
restricted to the string-valued snapshot entries the engine touches:
an association list from key to value. -/
abbrev Store := List (String × String)

/-- `storage.get(key)`: the entry under the key, `None` if absent. -/
def getStore : Store → String → Option String
  | [], _ => none
  | e :: rest, k => if e.1 = k then some e.2 else getStore rest k

/-- `storage.set(key, value)`: replace the entry in place or append. -/
def setStore (s : Store) (k v : String) : Store :=
  match s with
  | [] => [(k, v)]
  | e :: rest => if e.1 = k then (k, v) :: rest else e :: setStore rest k v

/-- The snapshot key `f"sync_snapshot::{group.id}"`. -/
def snapshotKey (group_id : String) : String := "sync_snapshot::" ++ group_id

/-- `dict.get` on the `playlists` mapping. -/
def lookupService : List (ServiceType × String) → ServiceType → Option String
  | [], _ => none
  | e :: rest, s => if e.1 = s then some e.2 else lookupService rest s

/-- The `search_track` loop of `SyncManager._sync_targets`: map the
source tracks through the target connector in order, dropping misses,
aborted by a raised exception. -/
def mapTracks (c : Connector) (service : ServiceType) :
    List Track → List Event × Except Err (List Track)
  | [] => ([], .ok [])
  | t :: rest =>
      match c.search_track t with
      | .error e => ([.searchTrack service t], .error e)
      | .ok m =>
          (.searchTrack service t :: (mapTracks c service rest).1,
            (mapTracks c service rest).2.map
              (fun ms => match m with | some mt => mt :: ms | none => ms))

/-- The body of the `for service, playlist_id in group.playlists.items()`
loop of `SyncManager._sync_targets` (`sync.py` lines 127–145) for one
entry. -/
def syncTarget (connectors : ServiceType → Option Connector) (primary : ServiceType)
    (service : ServiceType) (playlist_id : String) (source_tracks : List Track) :
    List Event × Option Err :=
  if service = primary then ([], none)
  else
    match connectors service with
    | none => ([], none)
    | some c =>
        if c.token_ready = false then ([], none)
        else if source_tracks.isEmpty then
          match c.replace_tracks playlist_id [] with
          | .error e => ([.replaceTracks service playlist_id []], some e)
          | .ok _ => ([.replaceTracks service playlist_id []], none)
        else
          match (mapTracks c service source_tracks).2 with
          | .error e => ((mapTracks c service source_tracks).1, some e)
          | .ok mapped =>
              match c.replace_tracks playlist_id mapped with
              | .error e =>
                  ((mapTracks c service source_tracks).1
                    ++ [.replaceTracks service playlist_id mapped], some e)
              | .ok _ =>
                  ((mapTracks c service source_tracks).1
                    ++ [.replaceTracks service playlist_id mapped], none)

/-- `SyncManager._sync_targets` (`sync.py` lines 127–145): the loop over
the group's mapping, aborted by the first raised exception (the source
has no `try`/`except` around the loop body). -/
def syncTargets (connectors : ServiceType → Option Connector) (primary : ServiceType)
    (entries : List (ServiceType × String)) (source_tracks : List Track) :
    List Event × Option Err :=
  match entries with
  | [] => ([], none)
  | (service, pid) :: rest =>
      match (syncTarget connectors primary service pid source_tracks).2 with
      | some e => ((syncTarget connectors primary service pid source_tracks).1, some e)
      | none =>
          ((syncTarget connectors primary service pid source_tracks).1
              ++ (syncTargets connectors primary rest source_tracks).1,
            (syncTargets connectors primary rest source_tracks).2)

/-- Result of a reconciliation run: the event trace, the resulting
snapshot store, and the exception that escaped, if any. -/
structure GroupRun where
  events : List Event
  store : Store
  err : Option Err
deriving DecidableEq, Repr

/-- `SyncManager._sync_group` (`sync.py` lines 106–125). -/
def syncGroup (connectors : ServiceType → Option Connector) (store : Store)
    (group : SyncGroup) : GroupRun :=
  match connectors group.primary_service with
  | none => ⟨[], store, none⟩
  | some pc =>
      if pc.token_ready = false then ⟨[], store, none⟩
      else
        match lookupService group.playlists group.primary_service with
        | none => ⟨[], store, none⟩
        | some source_playlist_id =>
            match pc.list_tracks source_playlist_id with
            | .error e => ⟨[.listTracks group.primary_service source_playlist_id], store, some e⟩
            | .ok source_tracks =>
                let key := snapshotKey group.id
                let digest := tracksDigest source_tracks
                if getStore store key = some digest then
                  ⟨[.listTracks group.primary_service source_playlist_id], store, none⟩
                else
                  match (syncTargets connectors group.primary_service
                      group.playlists source_tracks).2 with
                  | some e =>
                      ⟨.listTracks group.primary_service source_playlist_id
                          :: (syncTargets connectors group.primary_service
                              group.playlists source_tracks).1,
                        store, some e⟩
                  | none =>
                      ⟨.listTracks group.primary_service source_playlist_id
                          :: (syncTargets connectors group.primary_service
                              group.playlists source_tracks).1
                          ++ [.storeSet key digest],
                        setStore store key digest, none⟩

/-- `SyncManager.run_once` (`sync.py` lines 101–104): sweep the loaded
group list in order; an exception raised while reconciling one group
escapes `run_once` (the loop body has no `try`/`except`). -/
def runOnce (connectors : ServiceType → Option Connector) (store : Store) :
    List SyncGroup → GroupRun
  | [] => ⟨[], store, none⟩
  | g :: rest =>
      let r := syncGroup connectors store g
      match r.err with
      | some e => ⟨r.events, r.store, some e⟩
      | none =>
          let r2 := runOnce connectors r.store rest
          ⟨r.events ++ r2.events, r2.store, r2.err⟩

/-- `SyncManager.run` (`sync.py` lines 92–99) iterated for `fuel`
cycles with the stop signal unset: an exception escaping `run_once`
also escapes `run` and terminates the polling loop. -/
def runCycles (connectors : ServiceType → Option Connector) (groups : List SyncGroup) :
    Nat → Store → GroupRun
  | 0, store => ⟨[], store, none⟩
  | fuel + 1, store =>
      let r := runOnce connectors store groups
      match r.err with
      | some e => ⟨r.events, r.store, some e⟩
      | none =>
          let r2 := runCycles connectors groups fuel r.store
          ⟨r.events ++ r2.events, r2.store, r2.err⟩

/-- `SyncManager.update_group` (`sync.py` lines 74–82): replace the
first matching group's mapping in the loaded list and persist; when no
id matches, nothing is saved and `None` is returned. -/
def updateGroups (groups : List SyncGroup) (group_id : String)
    (playlists : List (ServiceType × String)) : Option SyncGroup × List SyncGroup :=
  match groups with
  | [] => (none, [])
  | g :: rest =>
      if g.id = group_id then
        (some { g with playlists := playlists }, { g with playlists := playlists } :: rest)
      else
        let (r, rest2) := updateGroups rest group_id playlists
        (r, g :: rest2)

/-! ### Scheduler loop (`SyncManager.run`, `sync.py` lines 89–99) -/

/-- Control phases of the polling loop: the
`while not self._stop_event.is_set()` check, the locked `run_once`
pass, the `asyncio.wait_for(self._stop_event.wait(), interval)` sleep,
and loop exit. -/
inductive Phase
  | checkFlag
  | sweeping
  | waiting
  | stopped
deriving DecidableEq, Repr

/-- One scheduler step, given whether the stop event is set when the
phase runs: the flag check exits or starts a pass; an in-flight pass
always completes into the wait; both a timeout (`TimeoutError` →
`continue`) and a stop-wakeup of the wait return to the flag check. -/
def schedStep : Phase → Bool → Phase
  | .checkFlag, true => .stopped
  | .checkFlag, false => .sweeping
  | .sweeping, _ => .waiting
  | .waiting, _ => .checkFlag
  | .stopped, _ => .stopped

/-- A scheduler trace: `stop n` is the stop flag observed at step `n`;
`Event.set()` is never cleared, so valid stop inputs are monotone. -/
def IsSchedTrace (phase : Nat → Phase) (stop : Nat → Bool) : Prop :=
  ∀ n, phase (n + 1) = schedStep (phase n) (stop n)

/-- The match a target connector yields for one source track when its
`search_track` does not raise: the found equivalent, or `none` for a
dropped track. -/
def okMatch (c : Connector) (t : Track) : Option Track :=
  match c.search_track t with
  | .ok (some m) => some m
  | _ => none

/-- Whether an event is a `replace_tracks` call on the given service. -/
def isReplaceOn (service : ServiceType) : Event → Bool
  | .replaceTracks s _ _ => s == service
  | _ => false

/-! ### Concrete fixtures used by witnesses and counterexamples -/

def sampleTrack : Track :=
  { id := "s1"
    title := "Song"
    artists := ["Artist"]
    album := some "Album" }

/-- A connector whose reads succeed, whose searches mirror the query
and whose writes succeed. -/
def okConnector : Connector :=
  { token_ready := true
    list_tracks := fun _ => .ok [sampleTrack]
    search_track := fun t => .ok (some t)
    replace_tracks := fun _ _ => .ok () }

/-- Like `okConnector` but `replace_tracks` raises. -/
def failingReplaceConnector : Connector :=
  { okConnector with replace_tracks := fun _ _ => .error "boom" }

/-- Like `okConnector` but `list_tracks` raises. -/
def failingListConnector : Connector :=
  { okConnector with list_tracks := fun _ => .error "net" }

def groupA : SyncGroup :=
  { id := "g1"
    name := "Mirror"
    primary_service := .spotify
    playlists := [(.spotify, "p"), (.apple_music, "a"), (.youtube_music, "y")] }

def groupB : SyncGroup :=
  { id := "g2"
    name := "Second"
    primary_service := .apple_music
    playlists := [(.apple_music, "p2"), (.youtube_music, "y2")] }

/-- Connector registry with a healthy connector for every service. -/
def connsAllOk : ServiceType → Option Connector := fun _ => some okConnector

/-- Connector registry in which the Apple Music target's
`replace_tracks` raises while the YouTube Music target is healthy. -/
def connsReplaceFails : ServiceType → Option Connector
  | .spotify => some okConnector
  | .apple_music => some failingReplaceConnector
  | .youtube_music => some okConnector

/-- Connector registry in which the Spotify primary's `list_tracks`
raises while everything else is healthy. -/
def connsListFails : ServiceType → Option Connector
  | .spotify => some failingListConnector
  | .apple_music => some okConnector
  | .youtube_music => some okConnector

theorem ServiceType.ofValue_value (s : ServiceType) : ServiceType.ofValue s.value = some s := by
  cases s <;> rfl

theorem parsePlaylistEntry_enc (e : ServiceType × String) :
    parsePlaylistEntry (e.1.value, e.2) = some e := by
  simp [parsePlaylistEntry, ServiceType.ofValue_value]

theorem parsePlaylists_enc (l : List (ServiceType × String)) :
    parsePlaylists (l.map (fun e => (e.1.value, e.2))) = some l := by
  induction l with
  | nil => rfl
  | cons e rest ih =>
      simp [parsePlaylists, parsePlaylistEntry_enc e, ih]

theorem from_dict_to_dict (g : SyncGroup) :
    SyncGroup.from_dict (SyncGroup.to_dict g) = some g := by
  unfold SyncGroup.from_dict SyncGroup.to_dict
  simp [parsePlaylists_enc, ServiceType.ofValue_value]

theorem getStore_setStore (s : Store) (k v : String) :
    getStore (setStore s k v) k = some v := by
  induction s with
  | nil => simp [setStore, getStore]
  | cons e rest ih =>
      by_cases h : e.1 = k
      · simp [setStore, getStore, h]
      · simp [setStore, getStore, h, ih]

/-- C10: a `SyncGroup` survives `to_dict`/`from_dict`, hence a
save/load cycle of the group list through the State Store. -/
theorem spec_C10 :
    (∀ g : SyncGroup, SyncGroup.from_dict (SyncGroup.to_dict g) = some g) ∧
    (∀ groups : List SyncGroup, loadGroups (saveGroups groups) = some groups) := by
  refine ⟨from_dict_to_dict, ?_⟩
  intro groups
  induction groups with
  | nil => rfl
  | cons g rest ih =>
      simp only [saveGroups, List.map_cons, loadGroups, from_dict_to_dict]
      simp only [saveGroups] at ih
      simp [ih]

/-- C7: `normalized_signature` is a pure function of title, artists and
album with the stated shape; tracks differing only in `id`, `isrc` or
`duration_ms` share it, and the `search_track` exact scan treats two
tracks as the same song exactly when the signatures agree. -/
theorem spec_C7 :
    (∀ t1 t2 : Track, t1.title = t2.title → t1.artists = t2.artists →
        t1.album = t2.album → t1.normalized_signature = t2.normalized_signature) ∧
    (∀ (t : Track) (i : String) (s : Option String) (d : Option Nat),
        ({ t with id := i, isrc := s, duration_ms := d } : Track).normalized_signature
          = t.normalized_signature) ∧
    (∀ t : Track, t.normalized_signature
        = pyLower t.title ++ "|" ++ pyLower (String.intercalate " " t.artists)
            ++ "|" ++ pyLower (t.album.getD "")) ∧
    (∀ (q : Track) (cs : List Track) (c : Track), exactSignatureMatch q cs = some c →
        c.normalized_signature = q.normalized_signature) ∧
    (∀ (q : Track) (cs : List Track), exactSignatureMatch q cs = none ↔
        ∀ c ∈ cs, c.normalized_signature ≠ q.normalized_signature) := by
  refine ⟨?_, ?_, fun _ => rfl, ?_, ?_⟩
  · intro t1 t2 h1 h2 h3
    simp [Track.normalized_signature, h1, h2, h3]
  · intro t i s d
    rfl
  · intro q cs c h
    unfold exactSignatureMatch at h
    have := List.find?_some h
    simpa using this
  · intro q cs
    unfold exactSignatureMatch
    rw [List.find?_eq_none]
    constructor
    · intro h c hc
      have := h c hc
      simpa using this
    · intro h c hc
      simpa using h c hc

theorem spec_C7_witness :
    ({ id := "b", title := "Song", artists := ["Artist"], album := some "X",
        isrc := some "Z", duration_ms := some 5 } : Track).normalized_signature
      = ({ id := "a", title := "Song", artists := ["Artist"], album := some "X" } :
          Track).normalized_signature :=
  spec_C7.1 _ _ rfl rfl rfl

/-- C8: `update_group` replaces exactly the matched group's mapping,
keeps its identity and every other group, and returns the updated
group; an unknown id returns `None` with the list unchanged. -/
theorem spec_C8 :
    (∀ (pre : List SyncGroup) (g : SyncGroup) (post : List SyncGroup)
        (pls : List (ServiceType × String)), (∀ x ∈ pre, x.id ≠ g.id) →
        updateGroups (pre ++ g :: post) g.id pls
          = (some { g with playlists := pls },
              pre ++ { g with playlists := pls } :: post)) ∧
    (∀ (groups : List SyncGroup) (gid : String) (pls : List (ServiceType × String)),
        (∀ x ∈ groups, x.id ≠ gid) → updateGroups groups gid pls = (none, groups)) := by
  constructor
  · intro pre g post pls hpre
    induction pre with
    | nil => simp [updateGroups]
    | cons x rest ih =>
        have hx : x.id ≠ g.id := hpre x (by simp)
        have ih2 := ih (fun y hy => hpre y (by simp [hy]))
        simp [updateGroups, hx, ih2]
  · intro groups gid pls h
    induction groups with
    | nil => rfl
    | cons x rest ih =>
        have hx : x.id ≠ gid := h x (by simp)
        have ih2 := ih (fun y hy => h y (by simp [hy]))
        simp [updateGroups, hx, ih2]

theorem spec_C8_witness :
    updateGroups [groupA, groupB] "g2" [(.apple_music, "q2"), (.youtube_music, "y")]
      = (some { groupB with playlists := [(.apple_music, "q2"), (.youtube_music, "y")] },
         [groupA, { groupB with playlists := [(.apple_music, "q2"), (.youtube_music, "y")] }]) :=
  spec_C8.1 [groupA] groupB [] [(.apple_music, "q2"), (.youtube_music, "y")] (by decide)

/-- C6: a group whose primary connector is missing, whose primary
token is not ready, or whose mapping lacks a primary entry is skipped
with no connector reads or writes and no State Store writes. -/
theorem spec_C6 (connectors : ServiceType → Option Connector) (store : Store)
    (g : SyncGroup)
    (h : connectors g.primary_service = none
      ∨ (∃ pc, connectors g.primary_service = some pc ∧ pc.token_ready = false)
      ∨ lookupService g.playlists g.primary_service = none) :
    syncGroup connectors store g = ⟨[], store, none⟩ := by
  rcases h with h | ⟨pc, hpc, ht⟩ | h
  · simp [syncGroup, h]
  · simp [syncGroup, hpc, ht]
  · cases hc : connectors g.primary_service with
    | none => simp [syncGroup, hc]
    | some pc =>
        cases htr : pc.token_ready with
        | false => simp [syncGroup, hc, htr]
        | true => simp [syncGroup, hc, htr, h]

theorem spec_C6_witness :
    syncGroup (fun _ => none) []
        { id := "g1", name := "G", primary_service := .spotify,
          playlists := [(.spotify, "p"), (.apple_music, "a")] }
      = ⟨[], [], none⟩ :=
  spec_C6 _ _ _ (Or.inl rfl)

/-- C9: in the scheduler loop, once the stop flag is set no later step
is a sweep, and the terminal state is never entered directly from an
in-flight sweep (nor from the wait — the loop re-checks the flag
first). -/
theorem spec_C9 (phase : Nat → Phase) (stop : Nat → Bool)
    (htrace : IsSchedTrace phase stop)
    (hmono : ∀ i j, i ≤ j → stop i = true → stop j = true) :
    (∀ n, stop n = true → ∀ m, n < m → phase m ≠ .sweeping) ∧
    (∀ n, phase (n + 1) = .stopped → phase n = .checkFlag ∨ phase n = .stopped) := by
  constructor
  · intro n hn m hm
    obtain ⟨k, rfl⟩ : ∃ k, m = k + 1 := ⟨m - 1, by omega⟩
    have hstopk : stop k = true := hmono n k (by omega) hn
    rw [htrace k, hstopk]
    cases phase k <;> simp [schedStep]
  · intro n hstep
    rw [htrace n] at hstep
    cases hp : phase n
    · exact Or.inl rfl
    · rw [hp] at hstep
      simp [schedStep] at hstep
    · rw [hp] at hstep
      simp [schedStep] at hstep
    · exact Or.inr rfl

theorem spec_C9_witness : Phase.stopped ≠ Phase.sweeping :=
  (spec_C9 (fun n => if n = 0 then .checkFlag else .stopped) (fun _ => true)
      (by intro n; cases n <;> rfl)
      (by intro i j _ h; exact h)).1 0 rfl 1 (by omega)

theorem mapTracks_events (c : Connector) (svc : ServiceType) (ts : List Track) :
    ∀ ev ∈ (mapTracks c svc ts).1, ∃ t, ev = Event.searchTrack svc t := by
  induction ts with
  | nil => intro ev h; simp [mapTracks] at h
  | cons t rest ih =>
      intro ev h
      cases hs : c.search_track t with
      | error e =>
          simp [mapTracks, hs] at h
          exact ⟨t, h⟩
      | ok m =>
          simp only [mapTracks, hs, List.mem_cons] at h
          rcases h with h | h
          · exact ⟨t, h⟩
          · exact ih ev h

theorem mapTracks_ok (c : Connector) (svc : ServiceType) (ts ms : List Track)
    (h : (mapTracks c svc ts).2 = .ok ms) : ms = ts.filterMap (okMatch c) := by
  induction ts generalizing ms with
  | nil => simp [mapTracks] at h; simp [h]
  | cons t rest ih =>
      cases hs : c.search_track t with
      | error e => simp [mapTracks, hs] at h
      | ok m =>
          simp only [mapTracks, hs] at h
          cases hr : (mapTracks c svc rest).2 with
          | error e => rw [hr] at h; simp [Except.map] at h
          | ok ms2 =>
              rw [hr] at h
              simp only [Except.map] at h
              have hms2 := ih ms2 hr
              cases m with
              | none =>
                  simp only [Except.ok.injEq] at h
                  simp [List.filterMap_cons, okMatch, hs, ← h, hms2]
              | some mt =>
                  simp only [Except.ok.injEq] at h
                  simp [List.filterMap_cons, okMatch, hs, ← h, hms2]

theorem syncTarget_events (connectors : ServiceType → Option Connector)
    (primary s : ServiceType) (p : String) (src : List Track) :
    ∀ ev ∈ (syncTarget connectors primary s p src).1,
      (∃ t, ev = Event.searchTrack s t) ∨ ∃ ts, ev = Event.replaceTracks s p ts := by
  intro ev h
  by_cases hp : s = primary
  · simp [syncTarget, hp] at h
  · cases hc : connectors s with
    | none => simp [syncTarget, hp, hc] at h
    | some c =>
        cases ht : c.token_ready with
        | false => simp [syncTarget, hp, hc, ht] at h
        | true =>
            by_cases he : src.isEmpty
            · cases hrt : c.replace_tracks p [] <;>
                · simp [syncTarget, hp, hc, ht, he, hrt] at h
                  exact Or.inr ⟨[], h⟩
            · cases hm : (mapTracks c s src).2 with
              | error e =>
                  simp [syncTarget, hp, hc, ht, he, hm] at h
                  exact Or.inl (mapTracks_events c s src ev h)
              | ok mapped =>
                  cases hrt : c.replace_tracks p mapped <;>
                    · simp [syncTarget, hp, hc, ht, he, hm, hrt] at h
                      rcases h with h | h
                      · exact Or.inl (mapTracks_events c s src ev h)
                      · exact Or.inr ⟨mapped, h⟩

theorem syncTargets_events (connectors : ServiceType → Option Connector)
    (primary : ServiceType) (entries : List (ServiceType × String)) (src : List Track) :
    ∀ ev ∈ (syncTargets connectors primary entries src).1,
      ∃ sp ∈ entries,
        (∃ t, ev = Event.searchTrack sp.1 t) ∨ ∃ ts, ev = Event.replaceTracks sp.1 sp.2 ts := by
  induction entries with
  | nil => intro ev h; simp [syncTargets] at h
  | cons e rest ih =>
      obtain ⟨s, p⟩ := e
      intro ev h
      cases herr : (syncTarget connectors primary s p src).2 with
      | some er =>
          simp only [syncTargets, herr] at h
          exact ⟨(s, p), by simp, syncTarget_events connectors primary s p src ev h⟩
      | none =>
          simp only [syncTargets, herr, List.mem_append] at h
          rcases h with h | h
          · exact ⟨(s, p), by simp, syncTarget_events connectors primary s p src ev h⟩
          · obtain ⟨sp, hsp, hshape⟩ := ih ev h
            exact ⟨sp, by simp [hsp], hshape⟩

theorem mapTracks_filter_replace (c : Connector) (svc service : ServiceType)
    (ts : List Track) :
    (mapTracks c svc ts).1.filter (isReplaceOn service) = [] := by
  rw [List.filter_eq_nil]
  intro ev h
  obtain ⟨t, rfl⟩ := mapTracks_events c svc ts ev h
  simp [isReplaceOn]

theorem syncTarget_filter_other (connectors : ServiceType → Option Connector)
    (primary s service : ServiceType) (p : String) (src : List Track)
    (hne : s ≠ service) :
    (syncTarget connectors primary s p src).1.filter (isReplaceOn service) = [] := by
  rw [List.filter_eq_nil]
  intro ev h
  rcases syncTarget_events connectors primary s p src ev h with ⟨t, rfl⟩ | ⟨ts, rfl⟩
  · simp [isReplaceOn]
  · simp [isReplaceOn, hne]

theorem syncTargets_filter_not_mem (connectors : ServiceType → Option Connector)
    (primary service : ServiceType) (entries : List (ServiceType × String))
    (src : List Track) (hnm : service ∉ entries.map Prod.fst) :
    (syncTargets connectors primary entries src).1.filter (isReplaceOn service) = [] := by
  rw [List.filter_eq_nil]
  intro ev h
  obtain ⟨sp, hsp, hshape⟩ := syncTargets_events connectors primary entries src ev h
  have hs : sp.1 ≠ service := by
    intro hq
    exact hnm (hq ▸ List.mem_map_of_mem Prod.fst hsp)
  rcases hshape with ⟨t, rfl⟩ | ⟨ts, rfl⟩
  · simp [isReplaceOn]
  · simp [isReplaceOn, hs]

theorem syncTarget_filter_self (connectors : ServiceType → Option Connector)
    (primary service : ServiceType) (pid : String) (src : List Track) (c : Connector)
    (hne : service ≠ primary) (hc : connectors service = some c)
    (ht : c.token_ready = true)
    (herr : (syncTarget connectors primary service pid src).2 = none) :
    (syncTarget connectors primary service pid src).1.filter (isReplaceOn service)
      = [Event.replaceTracks service pid (src.filterMap (okMatch c))] := by
  by_cases he : src.isEmpty
  · have hsrc : src = [] := List.isEmpty_iff.mp he
    cases hrt : c.replace_tracks pid []
    · simp [syncTarget, hne, hc, ht, he, hrt] at herr
    · simp [syncTarget, hne, hc, ht, he, hrt, isReplaceOn, hsrc]
  · cases hm : (mapTracks c service src).2 with
    | error e => simp [syncTarget, hne, hc, ht, he, hm] at herr
    | ok mapped =>
        cases hrt : c.replace_tracks pid mapped
        · simp [syncTarget, hne, hc, ht, he, hm, hrt] at herr
        · have hmain : (syncTarget connectors primary service pid src).1
              = (mapTracks c service src).1 ++ [Event.replaceTracks service pid mapped] := by
            simp [syncTarget, hne, hc, ht, he, hm, hrt]
          rw [hmain, List.filter_append, mapTracks_filter_replace]
          simp [isReplaceOn, mapTracks_ok c service src mapped hm]

/-- C5: an eligible target (non-primary, registered, token-ready)
receives exactly one `replace_tracks` call in a changed cycle, with the
`search_track` matches of the source tracks accumulated in source
order, misses dropped — the empty list exactly when the source list is
empty. -/
theorem spec_C5 (connectors : ServiceType → Option Connector) (primary : ServiceType)
    (entries : List (ServiceType × String)) (src : List Track)
    (service : ServiceType) (pid : String) (c : Connector)
    (hmem : (service, pid) ∈ entries)
    (hnodup : (entries.map Prod.fst).Nodup)
    (hne : service ≠ primary)
    (hc : connectors service = some c)
    (ht : c.token_ready = true)
    (herr : (syncTargets connectors primary entries src).2 = none) :
    (syncTargets connectors primary entries src).1.filter (isReplaceOn service)
      = [Event.replaceTracks service pid (src.filterMap (okMatch c))] := by
  induction entries with
  | nil => cases hmem
  | cons e rest ih =>
      obtain ⟨s, p⟩ := e
      cases hhe : (syncTarget connectors primary s p src).2 with
      | some er => simp [syncTargets, hhe] at herr
      | none =>
          have hrest : (syncTargets connectors primary rest src).2 = none := by
            simpa [syncTargets, hhe] using herr
          simp only [syncTargets, hhe, List.filter_append]
          rcases List.mem_cons.mp hmem with hhead | htail
          · obtain ⟨hs, hp⟩ := Prod.mk.injEq service pid s p ▸ hhead
            subst hs
            subst hp
            have hnm : service ∉ rest.map Prod.fst := by
              simpa using (List.nodup_cons.mp hnodup).1
            rw [syncTarget_filter_self connectors primary service pid src c hne hc ht hhe,
              syncTargets_filter_not_mem connectors primary service rest src hnm]
            simp
          · have hss : s ≠ service := by
              intro hq
              subst hq
              have hsm : s ∈ rest.map Prod.fst := List.mem_map_of_mem Prod.fst htail
              exact (List.nodup_cons.mp hnodup).1 hsm
            rw [syncTarget_filter_other connectors primary s service p src hss]
            simp only [List.nil_append]
            exact ih htail (List.nodup_cons.mp hnodup).2 hrest

theorem spec_C5_witness :
    (syncTargets connsAllOk .spotify [(.spotify, "p"), (.apple_music, "a")]
        [sampleTrack]).1.filter (isReplaceOn .apple_music)
      = [Event.replaceTracks .apple_music "a"
          ([sampleTrack].filterMap (okMatch okConnector))] :=
  spec_C5 connsAllOk .spotify [(.spotify, "p"), (.apple_music, "a")] [sampleTrack]
    .apple_music "a" okConnector (by decide) (by decide) (by decide) rfl rfl (by decide)

theorem syncTargets_no_storeSet (connectors : ServiceType → Option Connector)
    (primary : ServiceType) (entries : List (ServiceType × String)) (src : List Track)
    (k v : String) :
    Event.storeSet k v ∉ (syncTargets connectors primary entries src).1 := by
  intro h
  obtain ⟨sp, _, hshape⟩ := syncTargets_events connectors primary entries src _ h
  rcases hshape with ⟨t, ht⟩ | ⟨ts, ht⟩ <;> simp at ht

/-- C3: when the fresh digest equals the stored snapshot, the group
stops right after the source read — no target writes, no store writes;
consequently a second reconciliation immediately after an
exception-free run performs no `replace_tracks` call and leaves the
store untouched. -/
theorem spec_C3 (connectors : ServiceType → Option Connector) (store : Store)
    (g : SyncGroup) :
    (∀ pc spid tracks, connectors g.primary_service = some pc →
        pc.token_ready = true →
        lookupService g.playlists g.primary_service = some spid →
        pc.list_tracks spid = .ok tracks →
        getStore store (snapshotKey g.id) = some (tracksDigest tracks) →
        syncGroup connectors store g
          = ⟨[.listTracks g.primary_service spid], store, none⟩) ∧
    ((syncGroup connectors store g).err = none →
        (syncGroup connectors (syncGroup connectors store g).store g).store
            = (syncGroup connectors store g).store
          ∧ ((syncGroup connectors (syncGroup connectors store g).store g).events = []
              ∨ ∃ spid, (syncGroup connectors (syncGroup connectors store g).store g).events
                  = [Event.listTracks g.primary_service spid])) := by
  constructor
  · intro pc spid tracks hpc htr hsp hlt hdig
    simp [syncGroup, hpc, htr, hsp, hlt, hdig]
  · intro herr
    cases hpc : connectors g.primary_service with
    | none => simp [syncGroup, hpc]
    | some pc =>
        cases htr : pc.token_ready with
        | false => simp [syncGroup, hpc, htr]
        | true =>
            cases hsp : lookupService g.playlists g.primary_service with
            | none => simp [syncGroup, hpc, htr, hsp]
            | some spid =>
                cases hlt : pc.list_tracks spid with
                | error e => simp [syncGroup, hpc, htr, hsp, hlt] at herr
                | ok tracks =>
                    by_cases hdig : getStore store (snapshotKey g.id)
                        = some (tracksDigest tracks)
                    · refine ⟨by simp [syncGroup, hpc, htr, hsp, hlt, hdig], Or.inr ⟨spid, ?_⟩⟩
                      simp [syncGroup, hpc, htr, hsp, hlt, hdig]
                    · cases hterr : (syncTargets connectors g.primary_service
                          g.playlists tracks).2 with
                      | some e =>
                          simp [syncGroup, hpc, htr, hsp, hlt, hdig, hterr] at herr
                      | none =>
                          have hst : (syncGroup connectors store g).store
                              = setStore store (snapshotKey g.id) (tracksDigest tracks) := by
                            simp [syncGroup, hpc, htr, hsp, hlt, hdig, hterr]
                          have hdig2 : getStore (setStore store (snapshotKey g.id)
                                (tracksDigest tracks)) (snapshotKey g.id)
                              = some (tracksDigest tracks) := getStore_setStore _ _ _
                          rw [hst]
                          exact ⟨by simp [syncGroup, hpc, htr, hsp, hlt, hdig2],
                            Or.inr ⟨spid, by simp [syncGroup, hpc, htr, hsp, hlt, hdig2]⟩⟩

theorem spec_C3_witness :
    syncGroup connsAllOk [(snapshotKey "g1", tracksDigest [sampleTrack])] groupA
      = ⟨[.listTracks .spotify "p"], [(snapshotKey "g1", tracksDigest [sampleTrack])], none⟩ :=
  (spec_C3 connsAllOk [(snapshotKey "g1", tracksDigest [sampleTrack])] groupA).1
    okConnector "p" [sampleTrack] rfl rfl rfl rfl
    (by simp [getStore, groupA])

/-- C1 counterexample: with the Apple Music target's `replace_tracks`
raising and a healthy YouTube Music target behind it, the cycle stops
at the Apple Music failure — the YouTube Music target is never
attempted and no snapshot is persisted — refuting the claim that the
remaining targets run and the digest is written regardless. -/
theorem spec_C1_counterexample :
    syncGroup connsReplaceFails [] groupA
      = ⟨[.listTracks .spotify "p", .searchTrack .apple_music sampleTrack,
          .replaceTracks .apple_music "a" [sampleTrack]], [], some "boom"⟩
    ∧ Event.replaceTracks .youtube_music "y" [sampleTrack]
        ∉ (syncGroup connsReplaceFails [] groupA).events
    ∧ getStore (syncGroup connsReplaceFails [] groupA).store (snapshotKey "g1") = none := by
  exact ⟨by decide, by decide, by decide⟩

/-- C1 amended: a raised `replace_tracks` (or any connector call) for
one target aborts the remaining targets of the group, and the new
digest is not persisted — the snapshot store is unchanged and no store
write event occurs, so the group stays due on the next cycle. -/
theorem spec_C1 :
    (∀ (connectors : ServiceType → Option Connector) (primary service : ServiceType)
        (pid : String) (rest : List (ServiceType × String)) (src : List Track) (e : Err),
        (syncTarget connectors primary service pid src).2 = some e →
        syncTargets connectors primary ((service, pid) :: rest) src
          = ((syncTarget connectors primary service pid src).1, some e)) ∧
    (∀ (connectors : ServiceType → Option Connector) (store : Store) (g : SyncGroup)
        (e : Err), (syncGroup connectors store g).err = some e →
        (syncGroup connectors store g).store = store
          ∧ ∀ k v, Event.storeSet k v ∉ (syncGroup connectors store g).events) := by
  constructor
  · intro connectors primary service pid rest src e h
    simp [syncTargets, h]
  · intro connectors store g e herr
    cases hpc : connectors g.primary_service with
    | none => simp [syncGroup, hpc] at herr
    | some pc =>
        cases htr : pc.token_ready with
        | false => simp [syncGroup, hpc, htr] at herr
        | true =>
            cases hsp : lookupService g.playlists g.primary_service with
            | none => simp [syncGroup, hpc, htr, hsp] at herr
            | some spid =>
                cases hlt : pc.list_tracks spid with
                | error e2 =>
                    refine ⟨by simp [syncGroup, hpc, htr, hsp, hlt], ?_⟩
                    intro k v h
                    simp [syncGroup, hpc, htr, hsp, hlt] at h
                | ok tracks =>
                    by_cases hdig : getStore store (snapshotKey g.id)
                        = some (tracksDigest tracks)
                    · simp [syncGroup, hpc, htr, hsp, hlt, hdig] at herr
                    · cases hterr : (syncTargets connectors g.primary_service
                          g.playlists tracks).2 with
                      | none =>
                          simp [syncGroup, hpc, htr, hsp, hlt, hdig, hterr] at herr
                      | some e2 =>
                          refine ⟨by simp [syncGroup, hpc, htr, hsp, hlt, hdig, hterr], ?_⟩
                          intro k v h
                          simp [syncGroup, hpc, htr, hsp, hlt, hdig, hterr] at h
                          exact syncTargets_no_storeSet connectors g.primary_service
                            g.playlists tracks k v h

theorem spec_C1_witness :
    syncTargets connsReplaceFails .spotify
        [(.apple_music, "a"), (.youtube_music, "y")] [sampleTrack]
      = ((syncTarget connsReplaceFails .spotify .apple_music "a" [sampleTrack]).1,
          some "boom") :=
  spec_C1.1 connsReplaceFails .spotify .apple_music "a" [(.youtube_music, "y")]
    [sampleTrack] "boom" (by decide)

/-- C2 counterexample: with the first group's primary `list_tracks`
raising, the sweep stops at that group — the healthy second group is
never reconciled — and the escaping exception ends the polling loop,
refuting the claim that other groups still run and the loop survives. -/
theorem spec_C2_counterexample :
    runOnce connsListFails [] [groupA, groupB]
      = ⟨[.listTracks .spotify "p"], [], some "net"⟩
    ∧ runCycles connsListFails [groupA, groupB] 2 []
      = ⟨[.listTracks .spotify "p"], [], some "net"⟩ := by
  exact ⟨by decide, by decide⟩

/-- C2 amended: an exception raised by a connector call while
reconciling one group escapes `run_once` — the remaining groups of the
sweep are not processed — and then escapes `run`, terminating the
polling loop. -/
theorem spec_C2 :
    (∀ (connectors : ServiceType → Option Connector) (store : Store) (g : SyncGroup)
        (rest : List SyncGroup) (e : Err), (syncGroup connectors store g).err = some e →
        runOnce connectors store (g :: rest)
          = ⟨(syncGroup connectors store g).events,
              (syncGroup connectors store g).store, some e⟩) ∧
    (∀ (connectors : ServiceType → Option Connector) (groups : List SyncGroup)
        (store : Store) (fuel : Nat) (e : Err),
        (runOnce connectors store groups).err = some e →
        runCycles connectors groups (fuel + 1) store
          = ⟨(runOnce connectors store groups).events,
              (runOnce connectors store groups).store, some e⟩) := by
  constructor
  · intro connectors store g rest e h
    simp [runOnce, h]
  · intro connectors groups store fuel e h
    simp [runCycles, h]

theorem spec_C2_witness :
    runOnce connsListFails [] (groupA :: [groupB])
      = ⟨(syncGroup connsListFails [] groupA).events,
          (syncGroup connsListFails [] groupA).store, some "net"⟩ :=
  spec_C2.1 connsListFails [] groupA [groupB] "net" (by decide)

theorem hexVal_hexChar (d : Nat) (hd : d < 16) : hexVal (hexChar d) = some d := by
  interval_cases d <;> rfl

theorem parseHex4_hex4 (n : Nat) (l : List Char) (hn : n ≤ 65535) :
    parseHex4 (hex4 n ++ l) = some (n, l) := by
  have h1 : n / 4096 % 16 < 16 := Nat.mod_lt _ (by omega)
  have h2 : n / 256 % 16 < 16 := Nat.mod_lt _ (by omega)
  have h3 : n / 16 % 16 < 16 := Nat.mod_lt _ (by omega)
  have h4 : n % 16 < 16 := Nat.mod_lt _ (by omega)
  simp only [hex4, List.cons_append, List.nil_append, parseHex4,
    hexVal_hexChar _ h1, hexVal_hexChar _ h2, hexVal_hexChar _ h3, hexVal_hexChar _ h4]
  have : ((n / 4096 % 16 * 16 + n / 256 % 16) * 16 + n / 16 % 16) * 16 + n % 16 = n := by
    omega
  rw [this]

theorem parseEsc_u (n : Nat) (l : List Char) (hn : n ≤ 65535)
    (hs1 : ¬(55296 ≤ n ∧ n ≤ 56319)) (hs2 : ¬(56320 ≤ n ∧ n ≤ 57343)) :
    parseEsc ('u' :: (hex4 n ++ l)) = some (n, l) := by
  simp [parseEsc, parseHex4_hex4 n l hn, hs1, hs2]

theorem parseEsc_surrogates (n : Nat) (l : List Char) (h1 : 65536 ≤ n) (h2 : n < 1114112) :
    parseEsc ('u' :: (hex4 (55296 + (n - 65536) / 1024)
        ++ ('\\' :: 'u' :: (hex4 (56320 + (n - 65536) % 1024) ++ l))))
      = some (n, l) := by
  have hh : 55296 + (n - 65536) / 1024 ≤ 65535 := by omega
  have hl : 56320 + (n - 65536) % 1024 ≤ 65535 := by omega
  have hhs : 55296 ≤ 55296 + (n - 65536) / 1024 ∧ 55296 + (n - 65536) / 1024 ≤ 56319 := by
    omega
  have hls : 56320 ≤ 56320 + (n - 65536) % 1024 ∧ 56320 + (n - 65536) % 1024 ≤ 57343 := by
    omega
  simp only [parseEsc, parseHex4_hex4 _ _ hh, parseHex4_hex4 _ _ hl]
  simp [hhs, hls]
  omega

theorem parseStrBody_quote (fuel : Nat) (l : List Char) :
    parseStrBody fuel ('"' :: l) = some ([], l) := by
  cases fuel <;> rfl

theorem parseStrBody_esc (fuel : Nat) (l rest2 : List Char) (n : Nat)
    (h : parseEsc l = some (n, rest2)) :
    parseStrBody (fuel + 1) ('\\' :: l)
      = (parseStrBody fuel rest2).map (fun p => (n :: p.1, p.2)) := by
  simp [parseStrBody, h]

theorem parseStrBody_lit (fuel : Nat) (c : Char) (l : List Char)
    (h1 : ¬c = '"') (h2 : ¬c = '\\') :
    parseStrBody (fuel + 1) (c :: l)
      = (parseStrBody fuel l).map (fun p => (c.toNat :: p.1, p.2)) := by
  simp [parseStrBody, h1, h2]

theorem parseStrBody_escapeChar (c : Char) (fuel : Nat) (l : List Char) :
    parseStrBody (fuel + 1) (escapeChar c ++ l)
      = (parseStrBody fuel l).map (fun p => (c.toNat :: p.1, p.2)) := by
  have hv : c.toNat < 55296 ∨ (57344 ≤ c.toNat ∧ c.toNat < 1114112) := c.valid
  by_cases h34 : c.toNat = 34
  · have he : escapeChar c = ['\\', '"'] := by simp [escapeChar, h34]
    rw [he, show (['\\', '"'] : List Char) ++ l = '\\' :: '"' :: l from rfl,
      parseStrBody_esc fuel ('\"' :: l) l 34 rfl, h34]
  by_cases h92 : c.toNat = 92
  · have he : escapeChar c = ['\\', '\\'] := by simp [escapeChar, h34, h92]
    rw [he, show (['\\', '\\'] : List Char) ++ l = '\\' :: '\\' :: l from rfl,
      parseStrBody_esc fuel ('\\' :: l) l 92 rfl, h92]
  by_cases h8 : c.toNat = 8
  · have he : escapeChar c = ['\\', 'b'] := by simp [escapeChar, h34, h92, h8]
    rw [he, show (['\\', 'b'] : List Char) ++ l = '\\' :: 'b' :: l from rfl,
      parseStrBody_esc fuel ('b' :: l) l 8 rfl, h8]
  by_cases h9 : c.toNat = 9
  · have he : escapeChar c = ['\\', 't'] := by simp [escapeChar, h34, h92, h8, h9]
    rw [he, show (['\\', 't'] : List Char) ++ l = '\\' :: 't' :: l from rfl,
      parseStrBody_esc fuel ('t' :: l) l 9 rfl, h9]
  by_cases h10 : c.toNat = 10
  · have he : escapeChar c = ['\\', 'n'] := by simp [escapeChar, h34, h92, h8, h9, h10]
    rw [he, show (['\\', 'n'] : List Char) ++ l = '\\' :: 'n' :: l from rfl,
      parseStrBody_esc fuel ('n' :: l) l 10 rfl, h10]
  by_cases h12 : c.toNat = 12
  · have he : escapeChar c = ['\\', 'f'] := by
      simp [escapeChar, h34, h92, h8, h9, h10, h12]
    rw [he, show (['\\', 'f'] : List Char) ++ l = '\\' :: 'f' :: l from rfl,
      parseStrBody_esc fuel ('f' :: l) l 12 rfl, h12]
  by_cases h13 : c.toNat = 13
  · have he : escapeChar c = ['\\', 'r'] := by
      simp [escapeChar, h34, h92, h8, h9, h10, h12, h13]
    rw [he, show (['\\', 'r'] : List Char) ++ l = '\\' :: 'r' :: l from rfl,
      parseStrBody_esc fuel ('r' :: l) l 13 rfl, h13]
  by_cases h32 : c.toNat < 32
  · have he : escapeChar c = '\\' :: 'u' :: hex4 c.toNat := by
      simp [escapeChar, h34, h92, h8, h9, h10, h12, h13, h32]
    have hesc : parseEsc ('u' :: (hex4 c.toNat ++ l)) = some (c.toNat, l) :=
      parseEsc_u _ _ (by omega) (by omega) (by omega)
    rw [he, show ('\\' :: 'u' :: hex4 c.toNat) ++ l = '\\' :: ('u' :: (hex4 c.toNat ++ l))
        from by simp, parseStrBody_esc fuel _ l c.toNat hesc]
  by_cases h127 : c.toNat < 127
  · have hq : ¬c = '"' := fun hq => h34 (by rw [hq]; rfl)
    have hb : ¬c = '\\' := fun hq => h92 (by rw [hq]; rfl)
    have he : escapeChar c = [c] := by
      simp [escapeChar, h34, h92, h8, h9, h10, h12, h13, h32, h127]
    rw [he, show ([c] : List Char) ++ l = c :: l from rfl,
      parseStrBody_lit fuel c l hq hb]
  by_cases hbmp : c.toNat ≤ 65535
  · have he : escapeChar c = '\\' :: 'u' :: hex4 c.toNat := by
      simp [escapeChar, h34, h92, h8, h9, h10, h12, h13, h32, h127, hbmp]
    have hesc : parseEsc ('u' :: (hex4 c.toNat ++ l)) = some (c.toNat, l) :=
      parseEsc_u _ _ hbmp (by omega) (by omega)
    rw [he, show ('\\' :: 'u' :: hex4 c.toNat) ++ l = '\\' :: ('u' :: (hex4 c.toNat ++ l))
        from by simp, parseStrBody_esc fuel _ l c.toNat hesc]
  · have he : escapeChar c = '\\' :: 'u' :: hex4 (55296 + (c.toNat - 65536) / 1024)
        ++ ('\\' :: 'u' :: hex4 (56320 + (c.toNat - 65536) % 1024)) := by
      simp [escapeChar, h34, h92, h8, h9, h10, h12, h13, h32, h127, hbmp]
    have hesc : parseEsc ('u' :: (hex4 (55296 + (c.toNat - 65536) / 1024)
        ++ ('\\' :: 'u' :: (hex4 (56320 + (c.toNat - 65536) % 1024) ++ l))))
        = some (c.toNat, l) :=
      parseEsc_surrogates c.toNat l (by omega) (by omega)
    rw [he, show ('\\' :: 'u' :: hex4 (55296 + (c.toNat - 65536) / 1024)
        ++ ('\\' :: 'u' :: hex4 (56320 + (c.toNat - 65536) % 1024))) ++ l
        = '\\' :: ('u' :: (hex4 (55296 + (c.toNat - 65536) / 1024)
          ++ ('\\' :: 'u' :: (hex4 (56320 + (c.toNat - 65536) % 1024) ++ l))))
        from by simp, parseStrBody_esc fuel _ l c.toNat hesc]

theorem parseStrBody_escapes (s : List Char) (fuel : Nat) (l : List Char)
    (hf : s.length ≤ fuel) :
    parseStrBody fuel (s.flatMap escapeChar ++ ('"' :: l))
      = some (s.map Char.toNat, l) := by
  induction s generalizing fuel l with
  | nil => simpa using parseStrBody_quote fuel l
  | cons c s ih =>
      cases fuel with
      | zero => simp at hf
      | succ fuel =>
          have hlen : s.length ≤ fuel := by simpa using hf
          simp only [List.flatMap_cons, List.append_assoc]
          rw [parseStrBody_escapeChar c fuel _, ih fuel l hlen]
          rfl

theorem parseJString_render (s : String) (fuel : Nat) (l : List Char)
    (hf : s.data.length ≤ fuel) :
    parseJString fuel (renderStr s ++ l) = some (strCodes s, l) := by
  have hs : renderStr s ++ l = '"' :: (s.data.flatMap escapeChar ++ ('"' :: l)) := by
    simp [renderStr]
  rw [hs]
  simpa [parseJString, strCodes] using parseStrBody_escapes s.data fuel l hf

theorem parseOptStr_render (o : Option String) (fuel : Nat) (l : List Char)
    (hf : ∀ s, o = some s → s.data.length ≤ fuel) :
    parseOptStr fuel (renderOptStr o ++ l) = some (o.map strCodes, l) := by
  cases o with
  | none => rfl
  | some s =>
      have hs : renderOptStr (some s) ++ l
          = '"' :: (s.data.flatMap escapeChar ++ ('"' :: l)) := by
        simp [renderOptStr, renderStr]
      rw [hs]
      simpa [parseOptStr, strCodes] using
        congrArg (Option.map (fun p => (some p.1, p.2)))
          (parseStrBody_escapes s.data fuel l (hf s rfl))

theorem parseLit_self (k l : List Char) : parseLit k (k ++ l) = some l := by
  induction k with
  | nil => rfl
  | cons c k ih => simpa [parseLit] using ih

theorem parseStrListRest_render (ts : List String) (sfuel fuel : Nat) (l : List Char)
    (hs : ∀ s ∈ ts, s.data.length ≤ sfuel) (hn : ts.length ≤ fuel) :
    parseStrListRest sfuel fuel
        (ts.flatMap (fun t => ',' :: ' ' :: renderStr t) ++ (']' :: l))
      = some (ts.map strCodes, l) := by
  induction ts generalizing fuel l with
  | nil => cases fuel <;> rfl
  | cons s ts ih =>
      cases fuel with
      | zero => simp at hn
      | succ fuel =>
          have h1 : s.data.length ≤ sfuel := hs s (by simp)
          have h2 : ∀ x ∈ ts, x.data.length ≤ sfuel := fun x hx => hs x (by simp [hx])
          have h3 : ts.length ≤ fuel := by simpa using hn
          simp only [List.flatMap_cons, List.append_assoc, List.cons_append]
          rw [show parseStrListRest sfuel (fuel + 1)
              (',' :: ' ' :: (renderStr s ++ (ts.flatMap (fun t => ',' :: ' ' :: renderStr t)
                ++ (']' :: l))))
              = (parseJString sfuel (renderStr s
                  ++ (ts.flatMap (fun t => ',' :: ' ' :: renderStr t) ++ (']' :: l)))).bind
                  (fun p => (parseStrListRest sfuel fuel p.2).map fun q => (p.1 :: q.1, q.2))
              from rfl,
            parseJString_render s sfuel _ h1]
          simp only [Option.some_bind]
          rw [ih fuel l h2 h3]
          rfl

theorem parseStrList_render (ts : List String) (sfuel fuel : Nat) (l : List Char)
    (hs : ∀ s ∈ ts, s.data.length ≤ sfuel) (hn : ts.length ≤ fuel) :
    parseStrList sfuel fuel (renderStrList ts ++ l) = some (ts.map strCodes, l) := by
  cases ts with
  | nil => rfl
  | cons s ts =>
      have h1 : s.data.length ≤ sfuel := hs s (by simp)
      have h2 : ∀ x ∈ ts, x.data.length ≤ sfuel := fun x hx => hs x (by simp [hx])
      have h3 : ts.length ≤ fuel := by simp at hn; omega
      have hshape : renderStrList (s :: ts) ++ l
          = '[' :: ('"' :: (s.data.flatMap escapeChar
              ++ ('"' :: (ts.flatMap (fun t => ',' :: ' ' :: renderStr t) ++ (']' :: l))))) := by
        simp [renderStrList, renderStr]
      rw [hshape]
      rw [show parseStrList sfuel fuel ('[' :: ('"' :: (s.data.flatMap escapeChar
              ++ ('"' :: (ts.flatMap (fun t => ',' :: ' ' :: renderStr t) ++ (']' :: l))))))
          = (parseJString sfuel ('"' :: (s.data.flatMap escapeChar
              ++ ('"' :: (ts.flatMap (fun t => ',' :: ' ' :: renderStr t) ++ (']' :: l)))))).bind
              (fun p => (parseStrListRest sfuel fuel p.2).map fun q => (p.1 :: q.1, q.2))
          from rfl]
      rw [show parseJString sfuel ('"' :: (s.data.flatMap escapeChar
              ++ ('"' :: (ts.flatMap (fun t => ',' :: ' ' :: renderStr t) ++ (']' :: l)))))
          = parseStrBody sfuel (s.data.flatMap escapeChar
              ++ ('"' :: (ts.flatMap (fun t => ',' :: ' ' :: renderStr t) ++ (']' :: l))))
          from rfl,
        parseStrBody_escapes s.data sfuel _ h1]
      simp only [Option.some_bind]
      rw [parseStrListRest_render ts sfuel fuel l h2 h3]
      rfl

theorem parseTrackRecord_render (t : Track) (fuel : Nat) (l : List Char)
    (hf : TrackFits t fuel) :
    parseTrackRecord fuel (renderTrackRecord t ++ l) = some (encTrack t, l) := by
  obtain ⟨hid, htitle, hartn, harts, halb, hisrc⟩ := hf
  have hshape : renderTrackRecord t ++ l
      = ('{' :: renderKey "album")
        ++ (renderOptStr t.album
          ++ ((',' :: ' ' :: renderKey "artists")
            ++ (renderStrList t.artists
              ++ ((',' :: ' ' :: renderKey "id")
                ++ (renderStr t.id
                  ++ ((',' :: ' ' :: renderKey "isrc")
                    ++ (renderOptStr t.isrc
                      ++ ((',' :: ' ' :: renderKey "title")
                        ++ (renderStr t.title ++ (['}'] ++ l)))))))))) := by
    simp [renderTrackRecord, List.append_assoc]
  rw [hshape]
  unfold parseTrackRecord
  rw [parseLit_self]
  simp only [Option.some_bind]
  rw [parseOptStr_render t.album fuel _ (fun s hs => halb s hs)]
  simp only [Option.some_bind]
  rw [parseLit_self]
  simp only [Option.some_bind]
  rw [parseStrList_render t.artists fuel fuel _ harts hartn]
  simp only [Option.some_bind]
  rw [parseLit_self]
  simp only [Option.some_bind]
  rw [parseJString_render t.id fuel _ hid]
  simp only [Option.some_bind]
  rw [parseLit_self]
  simp only [Option.some_bind]
  rw [parseOptStr_render t.isrc fuel _ (fun s hs => hisrc s hs)]
  simp only [Option.some_bind]
  rw [parseLit_self]
  simp only [Option.some_bind]
  rw [parseJString_render t.title fuel _ htitle]
  simp only [Option.some_bind]
  rw [parseLit_self]
  rfl

theorem parseRecList_cons (rfuel fuel : Nat) (x : List Char) (h : ∃ y, x = '{' :: y) :
    parseRecList rfuel fuel ('[' :: x)
      = (parseTrackRecord rfuel x).bind fun p =>
          (parseRecListRest rfuel fuel p.2).map fun q => (p.1 :: q.1, q.2) := by
  obtain ⟨y, rfl⟩ := h
  rfl

theorem parseRecListRest_render (ts : List Track) (rfuel fuel : Nat) (l : List Char)
    (hts : ∀ t ∈ ts, TrackFits t rfuel) (hn : ts.length ≤ fuel) :
    parseRecListRest rfuel fuel
        (ts.flatMap (fun u => ',' :: ' ' :: renderTrackRecord u) ++ (']' :: l))
      = some (ts.map encTrack, l) := by
  induction ts generalizing fuel l with
  | nil => cases fuel <;> rfl
  | cons t ts ih =>
      cases fuel with
      | zero => simp at hn
      | succ fuel =>
          have h1 : TrackFits t rfuel := hts t (by simp)
          have h2 : ∀ x ∈ ts, TrackFits x rfuel := fun x hx => hts x (by simp [hx])
          have h3 : ts.length ≤ fuel := by simpa using hn
          simp only [List.flatMap_cons, List.append_assoc, List.cons_append]
          rw [show parseRecListRest rfuel (fuel + 1)
              (',' :: ' ' :: (renderTrackRecord t
                ++ (ts.flatMap (fun u => ',' :: ' ' :: renderTrackRecord u) ++ (']' :: l))))
              = (parseTrackRecord rfuel (renderTrackRecord t
                  ++ (ts.flatMap (fun u => ',' :: ' ' :: renderTrackRecord u)
                    ++ (']' :: l)))).bind
                  (fun p => (parseRecListRest rfuel fuel p.2).map fun q => (p.1 :: q.1, q.2))
              from rfl,
            parseTrackRecord_render t rfuel _ h1]
          simp only [Option.some_bind]
          rw [ih fuel l h2 h3]
          rfl

theorem parseRecList_render (ts : List Track) (rfuel fuel : Nat) (l : List Char)
    (hts : ∀ t ∈ ts, TrackFits t rfuel) (hn : ts.length ≤ fuel) :
    parseRecList rfuel fuel (renderRecList ts ++ l) = some (ts.map encTrack, l) := by
  cases ts with
  | nil => rfl
  | cons t ts =>
      have h1 : TrackFits t rfuel := hts t (by simp)
      have h2 : ∀ x ∈ ts, TrackFits x rfuel := fun x hx => hts x (by simp [hx])
      have h3 : ts.length ≤ fuel := by simp at hn; omega
      have hshape : renderRecList (t :: ts) ++ l
          = '[' :: (renderTrackRecord t
              ++ (ts.flatMap (fun u => ',' :: ' ' :: renderTrackRecord u) ++ (']' :: l))) := by
        simp [renderRecList, List.append_assoc]
      rw [hshape, parseRecList_cons rfuel fuel
          (renderTrackRecord t
            ++ (ts.flatMap (fun u => ',' :: ' ' :: renderTrackRecord u) ++ (']' :: l)))
          ⟨_, rfl⟩,
        parseTrackRecord_render t rfuel _ h1]
      simp only [Option.some_bind]
      rw [parseRecListRest_render ts rfuel fuel l h2 h3]
      rfl

theorem trackFits_weight (t : Track) (f : Nat) (hw : trackWeight t ≤ f) : TrackFits t f := by
  obtain ⟨tid, ttitle, tartists, talbum, tisrc, tdur⟩ := t
  unfold trackWeight at hw
  simp only at hw
  refine ⟨?_, ?_, ?_, ?_, ?_, ?_⟩ <;> simp only
  · cases talbum <;> cases tisrc <;> simp only at hw <;> omega
  · cases talbum <;> cases tisrc <;> simp only at hw <;> omega
  · cases talbum <;> cases tisrc <;> simp only at hw <;> omega
  · intro a ha
    have h1 : a.data.length ≤ (tartists.map (fun x => x.data.length)).sum :=
      List.single_le_sum (fun x _ => Nat.zero_le x) _ (List.mem_map_of_mem _ ha)
    cases talbum <;> cases tisrc <;> simp only at hw <;> omega
  · intro a ha
    cases talbum with
    | none => cases ha
    | some a2 =>
        cases ha
        cases tisrc <;> simp only at hw <;> omega
  · intro a ha
    cases tisrc with
    | none => cases ha
    | some a2 =>
        cases ha
        cases talbum <;> simp only at hw <;> omega

theorem fits_of_mem (t : Track) (ts : List Track) (h : t ∈ ts) (f : Nat)
    (hf : tracksWeight ts ≤ f) : TrackFits t f := by
  apply trackFits_weight
  have h1 : trackWeight t ≤ (ts.map trackWeight).sum :=
    List.single_le_sum (fun x _ => Nat.zero_le x) _ (List.mem_map_of_mem _ h)
  unfold tracksWeight at hf
  omega

theorem len_le_weight (ts : List Track) : ts.length ≤ tracksWeight ts := by
  unfold tracksWeight
  omega

theorem charToNat_injective : Function.Injective Char.toNat := by
  intro a b h
  exact Char.ext (UInt32.ext h)

theorem strCodes_injective : Function.Injective strCodes := by
  intro s1 s2 h
  exact String.ext (List.map_injective_iff.mpr charToNat_injective h)

theorem encTrack_digestFields (t1 t2 : Track) (h : encTrack t1 = encTrack t2) :
    digestFields t1 = digestFields t2 := by
  unfold encTrack at h
  simp only [ParsedTrack.mk.injEq] at h
  obtain ⟨ha, har, hid, his, hti⟩ := h
  have h1 : t1.id = t2.id := strCodes_injective hid
  have h2 : t1.title = t2.title := strCodes_injective hti
  have h3 : t1.artists = t2.artists := List.map_injective_iff.mpr strCodes_injective har
  have h4 : t1.album = t2.album := Option.map_injective strCodes_injective ha
  have h5 : t1.isrc = t2.isrc := Option.map_injective strCodes_injective his
  simp [digestFields, h1, h2, h3, h4, h5]

theorem mapEnc_mapFields (A B : List Track) (h : A.map encTrack = B.map encTrack) :
    A.map digestFields = B.map digestFields := by
  induction A generalizing B with
  | nil => cases B with | nil => rfl | cons b B => simp at h
  | cons a A ih =>
      cases B with
      | nil => simp at h
      | cons b B =>
          simp only [List.map_cons, List.cons.injEq] at h ⊢
          exact ⟨encTrack_digestFields a b h.1, ih B h.2⟩

theorem jsonTracksPayload_inj (A B : List Track)
    (h : jsonTracksPayload A = jsonTracksPayload B) :
    A.map digestFields = B.map digestFields := by
  have hdata : renderRecList A = renderRecList B := by
    simpa [jsonTracksPayload] using congrArg String.data h
  have hfitsA : ∀ t ∈ A, TrackFits t (tracksWeight A + tracksWeight B) :=
    fun t ht => fits_of_mem t A ht _ (by omega)
  have hfitsB : ∀ t ∈ B, TrackFits t (tracksWeight A + tracksWeight B) :=
    fun t ht => fits_of_mem t B ht _ (by omega)
  have hnA : A.length ≤ tracksWeight A + tracksWeight B := by
    have := len_le_weight A
    omega
  have hnB : B.length ≤ tracksWeight A + tracksWeight B := by
    have := len_le_weight B
    omega
  have hA := parseRecList_render A (tracksWeight A + tracksWeight B)
    (tracksWeight A + tracksWeight B) [] hfitsA hnA
  have hB := parseRecList_render B (tracksWeight A + tracksWeight B)
    (tracksWeight A + tracksWeight B) [] hfitsB hnB
  rw [List.append_nil] at hA hB
  rw [hdata, hB] at hA
  exact mapEnc_mapFields A B (by injection hA with h1; exact (Prod.mk.injEq .. ▸ h1).1.symm)

/-- C4: the digest serializes the five-field records in source order
with stable key order and hashes the result with SHA-256
(`tracksDigest = tracksDigestWith sha256HexOfString`); recomputation is
deterministic; and the serialized digest inputs of two track lists
differing in order or in any of id/title/artists/album/isrc are
distinct — so the digests differ whenever the hash is applied
injectively (collision-resistance of SHA-256). -/
theorem spec_C4 :
    (∀ ts : List Track, tracksDigest ts = tracksDigestWith sha256HexOfString ts
        ∧ tracksDigest ts = tracksDigest ts) ∧
    (∀ A B : List Track, A.map digestFields ≠ B.map digestFields →
        jsonTracksPayload A ≠ jsonTracksPayload B) ∧
    (∀ hash : String → String, Function.Injective hash →
        ∀ A B : List Track, A.map digestFields ≠ B.map digestFields →
          tracksDigestWith hash A ≠ tracksDigestWith hash B) := by
  refine ⟨fun ts => ⟨rfl, rfl⟩, ?_, ?_⟩
  · intro A B hne h
    exact hne (jsonTracksPayload_inj A B h)
  · intro hash hinj A B hne h
    exact hne (jsonTracksPayload_inj A B (hinj h))

theorem spec_C4_witness :
    tracksDigestWith (fun s => s) [sampleTrack] ≠ tracksDigestWith (fun s => s) [] :=
  spec_C4.2.2 (fun s => s) (fun a b h => h) [sampleTrack] [] (by decide)

end PlaylistSync
